import Mathlib

/-!
Verification development for the bp-tracker repository.

JavaScript strings are modelled as `List Char` (`JSStr`); JavaScript numbers
that can be `NaN` are modelled by `JSNum`; `null` is modelled by `Option`.
Each definition below is a shallow embedding of a function of the source,
named after it; the source file is named in its doc comment.
-/

namespace BPTracker

/-- JavaScript strings, modelled as lists of characters. -/
abbrev JSStr := List Char

/-- Model of `String.prototype.trim`: drop whitespace from both ends. -/
def jsTrim (s : JSStr) : JSStr :=
  ((s.dropWhile Char.isWhitespace).reverse.dropWhile Char.isWhitespace).reverse

/-- Model of `String.prototype.split(sep)` for a one-character separator:
splits at every occurrence, keeping empty segments; the empty string yields
one empty segment, as in JavaScript. -/
def jsSplit (sep : Char) : JSStr → List JSStr
  | [] => [[]]
  | c :: rest =>
    let r := jsSplit sep rest
    if c = sep then [] :: r
    else
      match r with
      | [] => [[c]]
      | h :: t => (c :: h) :: t

/-- Decimal value of a digit run, most significant digit first. -/
def decVal (s : JSStr) : Nat :=
  s.foldl (fun acc c => 10 * acc + (c.toNat - 48)) 0

/-- Longest leading run of decimal digits interpreted as a number;
`none` when there is no leading digit (the `NaN` outcome). -/
def leadingDigits (s : JSStr) : Option Nat :=
  let ds := s.takeWhile Char.isDigit
  if ds.isEmpty then none else some (decVal ds)

/-- Model of `parseInt(s, 10)`: skip leading whitespace, read an optional
sign, then the longest run of decimal digits, ignoring any trailing
characters; `none` models the `NaN` result. -/
def jsParseInt (s : JSStr) : Option Int :=
  match s.dropWhile Char.isWhitespace with
  | [] => none
  | c :: rest =>
    if c = '-' then (leadingDigits rest).map (fun n => -(n : Int))
    else if c = '+' then (leadingDigits rest).map (fun n => (n : Int))
    else (leadingDigits (c :: rest)).map (fun n => (n : Int))

/-- A JavaScript number that may be `NaN`. -/
inductive JSNum where
  | nan : JSNum
  | num (n : Int) : JSNum
deriving DecidableEq, Repr

/-- Pack the result of `parseInt` as a JavaScript number (`none` is `NaN`). -/
def toJSNum : Option Int → JSNum
  | none => .nan
  | some n => .num n

/-- Model of `isNaN(x)` for a number. -/
def JSNum.isNaN : JSNum → Bool
  | .nan => true
  | .num _ => false

/-- Model of `x < k` for a number `x`: comparisons with `NaN` are false. -/
def JSNum.ltInt : JSNum → Int → Bool
  | .nan, _ => false
  | .num n, k => n < k

/-- Model of `x > k` for a number `x`: comparisons with `NaN` are false. -/
def JSNum.gtInt : JSNum → Int → Bool
  | .nan, _ => false
  | .num n, k => k < n

/-- Model of `isNaN(x)` where `x : number | null`: `isNaN(null)` coerces
`null` to `0` and is false. -/
def jsIsNaNOpt : Option JSNum → Bool
  | none => false
  | some x => x.isNaN

/-- Model of `x < k` where `x : number | null`: `null` coerces to `0`. -/
def jsOptLtInt : Option JSNum → Int → Bool
  | none, k => 0 < k
  | some x, k => x.ltInt k

/-- Model of `x > k` where `x : number | null`: `null` coerces to `0`. -/
def jsOptGtInt : Option JSNum → Int → Bool
  | none, k => k < 0
  | some x, k => x.gtInt k

/-! ### Input parser (`parseBPInput`, src/docs/screenshots/README.md) -/

/-- Result data of a successful parse (`ParsedBPInput` in the source). -/
structure ParsedBPInput where
  systolic : JSNum
  diastolic : JSNum
  heartRate : Option JSNum
deriving DecidableEq, Repr

/-- Result of `parseBPInput` (`ParseBPResult` in the source). -/
inductive ParseBPResult where
  | success (data : ParsedBPInput) : ParseBPResult
  | failure (errors : List String) : ParseBPResult
deriving DecidableEq, Repr

def msgEmpty : String := "Input is empty"
def msgFormat : String :=
  "Invalid format. Expected: systolic/diastolic or systolic/diastolic/heartRate"
def msgSysNaN : String := "Systolic must be a valid number"
def msgSysRange : String := "Systolic must be between 60 and 250"
def msgDiaNaN : String := "Diastolic must be a valid number"
def msgDiaRange : String := "Diastolic must be between 40 and 150"
def msgHrNaN : String := "Heart rate must be a valid number"
def msgHrRange : String := "Heart rate must be between 40 and 200"

/-- Embedding of `parseBPInput` (src/docs/screenshots/README.md).  The
third-segment quirk of the source is preserved: an empty third segment makes
`heartRateStr` the empty string (truthy-false), so `heartRate` is `null`,
yet the `heartRateStr !== null` check still runs the heart-rate validation,
where `isNaN(null)` is false and `null < 40` coerces to `0 < 40`. -/
def parseBPInput (input : JSStr) : ParseBPResult :=
  let trimmedInput := jsTrim input
  if trimmedInput.isEmpty then .failure [msgEmpty]
  else
    let parts := jsSplit '/' trimmedInput
    if parts.length < 2 || parts.length > 3 then .failure [msgFormat]
    else
      match parts with
      | p0 :: p1 :: rest =>
        let systolicStr := jsTrim p0
        let diastolicStr := jsTrim p1
        let heartRateStr : Option JSStr := rest.head?.map jsTrim
        let systolic : JSNum := toJSNum (jsParseInt systolicStr)
        let diastolic : JSNum := toJSNum (jsParseInt diastolicStr)
        let heartRate : Option JSNum :=
          match heartRateStr with
          | some s => if s.isEmpty then none else some (toJSNum (jsParseInt s))
          | none => none
        let sysErrors : List String :=
          if systolic.isNaN then [msgSysNaN]
          else if systolic.ltInt 60 || systolic.gtInt 250 then [msgSysRange]
          else []
        let diaErrors : List String :=
          if diastolic.isNaN then [msgDiaNaN]
          else if diastolic.ltInt 40 || diastolic.gtInt 150 then [msgDiaRange]
          else []
        let hrErrors : List String :=
          match heartRateStr with
          | none => []
          | some _ =>
            if jsIsNaNOpt heartRate then [msgHrNaN]
            else if jsOptLtInt heartRate 40 || jsOptGtInt heartRate 200 then [msgHrRange]
            else []
        let errors := sysErrors ++ diaErrors ++ hrErrors
        if errors.isEmpty then
          .success { systolic := systolic, diastolic := diastolic, heartRate := heartRate }
        else .failure errors
      -- unreachable: the segment-count guard ensures at least two segments
      | _ => .failure [msgFormat]

/-- The systolic validation block of `parseBPInput`, as a function of the
first segment alone. -/
def sysFieldErrors (seg : JSStr) : List String :=
  let systolic : JSNum := toJSNum (jsParseInt (jsTrim seg))
  if systolic.isNaN then [msgSysNaN]
  else if systolic.ltInt 60 || systolic.gtInt 250 then [msgSysRange]
  else []

/-- The diastolic validation block of `parseBPInput`, as a function of the
second segment alone. -/
def diaFieldErrors (seg : JSStr) : List String :=
  let diastolic : JSNum := toJSNum (jsParseInt (jsTrim seg))
  if diastolic.isNaN then [msgDiaNaN]
  else if diastolic.ltInt 40 || diastolic.gtInt 150 then [msgDiaRange]
  else []

/-- The heart-rate validation block of `parseBPInput`, as a function of the
optional third segment alone, with the source's empty-segment quirk kept. -/
def hrFieldErrors (seg : Option JSStr) : List String :=
  let heartRateStr : Option JSStr := seg.map jsTrim
  let heartRate : Option JSNum :=
    match heartRateStr with
    | some s => if s.isEmpty then none else some (toJSNum (jsParseInt s))
    | none => none
  match heartRateStr with
  | none => []
  | some _ =>
    if jsIsNaNOpt heartRate then [msgHrNaN]
    else if jsOptLtInt heartRate 40 || jsOptGtInt heartRate 200 then [msgHrRange]
    else []

/-! ### BP classifier (`classifyBP`, src/app/components/BPStats.tsx and
src/app/components/BPRecordsList.tsx, identical copies) -/

/-- The five severity categories (`BPCategory` in the source). -/
inductive BPCategory where
  | normal | elevated | high1 | high2 | crisis
deriving DecidableEq, Repr

/-- Embedding of `classifyBP` (src/app/components/BPStats.tsx lines 20-26). -/
def classifyBP (systolic diastolic : Int) : BPCategory :=
  if 180 ≤ systolic ∨ 120 ≤ diastolic then .crisis
  else if 140 ≤ systolic ∨ 90 ≤ diastolic then .high2
  else if 130 ≤ systolic ∨ 80 ≤ diastolic then .high1
  else if 120 ≤ systolic ∧ diastolic < 80 then .elevated
  else .normal

/-! ### Decimal numerals (used to state properties about numeral inputs) -/

/-- Character of a decimal digit. -/
def digitChar10 (d : Nat) : Char :=
  match d % 10 with
  | 0 => '0' | 1 => '1' | 2 => '2' | 3 => '3' | 4 => '4'
  | 5 => '5' | 6 => '6' | 7 => '7' | 8 => '8' | _ => '9'

/-- Accumulator loop producing the decimal digits of `n` in front of `acc`,
most significant first; `fuel` bounds the recursion. -/
def natToDigitsCore : Nat → Nat → JSStr → JSStr
  | 0, _, acc => acc
  | fuel + 1, n, acc =>
    if n = 0 then acc
    else natToDigitsCore fuel (n / 10) (digitChar10 (n % 10) :: acc)

/-- The decimal numeral of `n`, as produced by JavaScript `String(n)` for a
nonnegative integer. -/
def natToDigits (n : Nat) : JSStr :=
  if n = 0 then ['0'] else natToDigitsCore (n + 1) n []

/-- JavaScript `String(n)` for an integer. -/
def intToJSStr (n : Int) : JSStr :=
  if n < 0 then '-' :: natToDigits (-n).toNat else natToDigits n.toNat

/-! ### IEEE-754 binary64 arithmetic, as far as the trend computation needs
it: correctly rounded division of an integer by a small natural number and
correctly rounded subtraction, in round-to-nearest ties-to-even mode.
Values are dyadic rationals `m * 2^e`; overflow and subnormals are not
modelled (the computation stays far inside the normal range whenever the
inputs are below `2^53`, the same idealization used for integer fields). -/

/-- Fuelled floor of the base-two logarithm. -/
def log2fuel : Nat → Nat → Nat
  | 0, _ => 0
  | fuel + 1, n => if 2 ≤ n then log2fuel fuel (n / 2) + 1 else 0

/-- Floor of the base-two logarithm of a positive natural number;
kernel-reducible, unlike the library function. -/
def natLog2 (n : Nat) : Nat := log2fuel n n

/-- Whether `num / den ≥ 2 ^ c`, for positive naturals and a signed `c`. -/
def geQ (num den : Nat) (c : Int) : Bool :=
  if 0 ≤ c then den * 2 ^ c.toNat ≤ num else den ≤ num * 2 ^ (-c).toNat

/-- Floor of the base-two logarithm of `num / den`, for positive naturals. -/
def floorLog2Q (num den : Nat) : Int :=
  let c : Int := (natLog2 num : Int) - (natLog2 den : Int)
  if geQ num den c then c else c - 1

/-- Round `N / D` to the nearest integer, ties to even; `D` positive. -/
def rneDiv (N D : Int) : Int :=
  let f := Int.ediv N D
  let r := Int.emod N D
  if 2 * r < D then f
  else if D < 2 * r then f + 1
  else if f % 2 = 0 then f else f + 1

/-- A dyadic rational `m * 2^e`, the value space of binary64 numbers. -/
structure Dyadic where
  m : Int
  e : Int
deriving DecidableEq, Repr

/-- The rational value of a dyadic number. -/
def Dyadic.toRat (x : Dyadic) : ℚ := (x.m : ℚ) * (2 : ℚ) ^ x.e

/-- Binary64 division of an integer by a natural number: the exact quotient
scaled into `[2^52, 2^53)` and rounded to the nearest 53-bit mantissa, ties
to even — the correctly rounded result IEEE-754 requires.  A zero divisor
is unreachable in this program and mapped to zero. -/
def f64DivNat (a : Int) (d : Nat) : Dyadic :=
  if a = 0 ∨ d = 0 then ⟨0, 0⟩
  else
    let t := floorLog2Q a.natAbs d
    let s : Int := 52 - t
    let m : Int :=
      if 0 ≤ s then rneDiv (a * (2 ^ s.toNat : Nat)) d
      else rneDiv a ((d * 2 ^ (-s).toNat : Nat))
    ⟨m, -s⟩

/-- Binary64 subtraction: the exact dyadic difference, rounded to a 53-bit
mantissa (ties to even) when it does not fit — the correctly rounded result
IEEE-754 requires. -/
def f64Sub (x y : Dyadic) : Dyadic :=
  let e := min x.e y.e
  let M := x.m * (2 ^ (x.e - e).toNat : Nat) - y.m * (2 ^ (y.e - e).toNat : Nat)
  if M = 0 then ⟨0, 0⟩
  else
    let t := natLog2 M.natAbs
    if t ≤ 52 then ⟨M, e⟩
    else ⟨rneDiv M (2 ^ (t - 52) : Nat), e + ((t : Int) - 52)⟩

/-- Exact comparison of a binary64 value with an integer, `x < k`. -/
def Dyadic.ltInt (x : Dyadic) (k : Int) : Bool :=
  if 0 ≤ x.e then x.m * (2 ^ x.e.toNat : Nat) < k else x.m < k * (2 ^ (-x.e).toNat : Nat)

/-- Exact comparison of a binary64 value with an integer, `x > k`. -/
def Dyadic.gtInt (x : Dyadic) (k : Int) : Bool :=
  if 0 ≤ x.e then k < x.m * (2 ^ x.e.toNat : Nat) else k * (2 ^ (-x.e).toNat : Nat) < x.m

/-! ### Statistics engine: trend (src/app/components/BPStats.tsx lines 103-115) -/

/-- The record shape used by the UI components (`BPRecord` in
src/app/components/BPStats.tsx): `recorded_at` is the raw datetime string. -/
structure UIRecord where
  id : Int
  systolic : Int
  diastolic : Int
  heart_rate : Int
  recorded_at : JSStr
  notes : Option JSStr
deriving DecidableEq, Repr

/-- The three-state trend signal. -/
inductive Trend where
  | improving | stable | worsening
deriving DecidableEq, Repr

/-- Embedding of the trend computation inside `BPStats` (src/app/components/
BPStats.tsx lines 103-115); `records` is the newest-first list the component
receives.  The group sums are exact in binary64 below `2^53` and are kept as
integers; the divisions by the group lengths and the subtraction are
JavaScript double operations and are modelled by the correctly rounded
binary64 arithmetic above, whose result the comparisons against the exact
constants `-5` and `5` then test. -/
def bpTrend (records : List UIRecord) : Trend :=
  if 6 ≤ records.length then
    let recent := records.take (min 3 (records.length / 2))
    let older := (records.drop (records.length / 2)).take 3
    let recentSystolic : Dyadic :=
      f64DivNat (recent.foldl (fun sum r => sum + r.systolic) 0) recent.length
    let olderSystolic : Dyadic :=
      f64DivNat (older.foldl (fun sum r => sum + r.systolic) 0) older.length
    let diff := f64Sub recentSystolic olderSystolic
    if diff.ltInt (-5) then .improving
    else if diff.gtInt 5 then .worsening
    else .stable
  else .stable

/-! ### CSV exporter (src/app/components/BPStats.tsx lines 289-322) -/

/-- Model of `Array.prototype.join(sep)`. -/
def jsJoin (sep : JSStr) : List JSStr → JSStr
  | [] => []
  | [x] => x
  | x :: xs => x ++ sep ++ jsJoin sep xs

/-- The quoting test of `escapeCSVField`: the field contains a comma, a
double quote, a newline or a carriage return. -/
def needsQuoting (s : JSStr) : Bool :=
  s.contains ',' || s.contains '"' || s.contains '\n' || s.contains '\r'

/-- Model of `str.replace(/"/g, '""')`: double every double quote. -/
def dupQuotes : JSStr → JSStr
  | [] => []
  | c :: rest => if c = '"' then '"' :: '"' :: dupQuotes rest else c :: dupQuotes rest

/-- Embedding of `escapeCSVField` (src/app/components/BPStats.tsx lines
289-301) on a string field. -/
def escapeCSVField (s : JSStr) : JSStr :=
  if needsQuoting s then '"' :: dupQuotes s ++ ['"'] else s

/-- Embedding of `escapeCSVField` on a nullable string field: `null`
renders as the empty string. -/
def escapeCSVFieldOpt : Option JSStr → JSStr
  | none => []
  | some s => escapeCSVField s

/-- One data row of `recordsToCSV`: the five escaped fields joined by
commas, `recorded_at` in raw string form. -/
def csvRow (r : UIRecord) : JSStr :=
  jsJoin [','] [escapeCSVField r.recorded_at,
                escapeCSVField (intToJSStr r.systolic),
                escapeCSVField (intToJSStr r.diastolic),
                escapeCSVField (intToJSStr r.heart_rate),
                escapeCSVFieldOpt r.notes]

/-- The header fields of the CSV export. -/
def csvHeaders : List JSStr :=
  ["Date".data, "Systolic".data, "Diastolic".data, "Heart Rate".data, "Notes".data]

/-- Embedding of `recordsToCSV` (src/app/components/BPStats.tsx lines
306-322): the header row followed by one row per record, joined by single
newlines with no trailing newline. -/
def recordsToCSV (records : List UIRecord) : JSStr :=
  jsJoin ['\n'] (jsJoin [','] csvHeaders :: records.map csvRow)

/-! ### Export route date validation (src/app/components/BPStats.tsx lines
338-358) -/

/-- Numeric value of a digit character. -/
def digitVal (c : Char) : Nat := c.toNat - 48

/-- The shape test `/^\d{4}-\d{2}-\d{2}$/` together with the
`split('-').map(Number)` decomposition: returns the three numbers when the
string is exactly four digits, a hyphen, two digits, a hyphen, two digits. -/
def matchesYMD : JSStr → Option (Nat × Nat × Nat)
  | [a, b, c, d, h1, e, f, h2, g, h] =>
    if a.isDigit && b.isDigit && c.isDigit && d.isDigit && h1 = '-' &&
       e.isDigit && f.isDigit && h2 = '-' && g.isDigit && h.isDigit then
      some (digitVal a * 1000 + digitVal b * 100 + digitVal c * 10 + digitVal d,
            (digitVal e * 10 + digitVal f, digitVal g * 10 + digitVal h))
    else none
  | _ => none

def isLeapYear (y : Nat) : Bool :=
  (y % 4 = 0 && y % 100 ≠ 0) || y % 400 = 0

def daysInMonth (y m : Nat) : Nat :=
  if m = 2 then (if isLeapYear y then 29 else 28)
  else if m = 4 || m = 6 || m = 9 || m = 11 then 30
  else 31

/-- Model of `new Date("YYYY-MM-DD")` followed by reading the UTC
components: per the ECMAScript date-time string grammar the month must be
01-12 and the day 01-31, otherwise the date is invalid (`NaN` time value,
modelled `none`); a day past the end of the month rolls over into the next
month when the engine normalizes instead of rejecting (either way the
caller's component comparison then fails). -/
def jsDateYMD (y m d : Nat) : Option (Nat × Nat × Nat) :=
  if 1 ≤ m ∧ m ≤ 12 ∧ 1 ≤ d ∧ d ≤ 31 then
    some (if d ≤ daysInMonth y m then (y, (m, d))
          else if m = 12 then (y + 1, (1, d - daysInMonth y m))
          else (y, (m + 1, d - daysInMonth y m)))
  else none

/-- Embedding of `isValidDateString` (src/app/components/BPStats.tsx lines
338-358): the regex shape test, then the `new Date` round-trip comparison
of year, month and day. -/
def isValidDateString (s : JSStr) : Bool :=
  match matchesYMD s with
  | none => false
  | some (y, m, d) =>
    match jsDateYMD y m d with
    | none => false
    | some (y2, m2, d2) => y2 = y && m2 = m && d2 = d

/-! ### Record store (src/lib/db.ts) -/

/-- A stored row of `bp_records` (`BPRecord` in src/lib/db.ts);
`recorded_at` is modelled as an integer timestamp in seconds, ordered as the
canonical SQLite datetime strings are. -/
structure DbRecord where
  id : Int
  systolic : Int
  diastolic : Int
  heart_rate : Int
  recorded_at : Int
  notes : Option String
deriving DecidableEq, Repr

/-- The state of the store: the rows of the single `bp_records` table and
the current time used by `datetime('now', ...)`. -/
structure DbState where
  records : List DbRecord
  now : Int
deriving DecidableEq, Repr

/-- `PaginationOptions` of src/lib/db.ts. -/
structure PaginationOptions where
  limit : Option Int := none
  offset : Option Int := none
  days : Option Int := none
deriving DecidableEq, Repr

/-- `RecordsResult` of src/lib/db.ts. -/
structure RecordsResult where
  records : List DbRecord
  total : Nat
deriving DecidableEq, Repr

/-- The output order of `ORDER BY recorded_at DESC` as executed by SQLite
through a reverse scan of `idx_bp_records_recorded_at` (db/schema.sql):
descending `recorded_at`, and descending rowid `id` within equal keys. -/
def dbOrder (a b : DbRecord) : Prop :=
  b.recorded_at < a.recorded_at ∨ (b.recorded_at = a.recorded_at ∧ b.id ≤ a.id)

instance : DecidableRel dbOrder := fun a b => by
  unfold dbOrder; infer_instance

instance : IsTotal DbRecord dbOrder :=
  ⟨fun a b => by unfold dbOrder; omega⟩

instance : IsTrans DbRecord dbOrder :=
  ⟨fun a b c hab hbc => by unfold dbOrder at *; omega⟩

/-- The `WHERE` clause of `getRecords`: applied only when `days` is given
and positive, it keeps rows with `recorded_at >= datetime('now', '-N days')`. -/
def dateFilter (st : DbState) (days : Option Int) : List DbRecord :=
  match days with
  | some d =>
    if 0 < d then st.records.filter (fun r => st.now - d * 86400 ≤ r.recorded_at)
    else st.records
  | none => st.records

/-- SQLite `LIMIT ? OFFSET ?`: a negative limit means no limit, a negative
offset is treated as zero. -/
def sqlPage (l : List DbRecord) (limit offset : Int) : List DbRecord :=
  let afterOffset := if offset ≤ 0 then l else l.drop offset.toNat
  if limit < 0 then afterOffset else afterOffset.take limit.toNat

/-- Embedding of `BPTrackerDatabase.getRecords` (src/lib/db.ts lines 69-99):
`limit` defaults to 50, `offset` to 0; the count query and the row query
share the same `WHERE` clause, so `total` is the filtered count. -/
def getRecords (st : DbState) (options : PaginationOptions) : RecordsResult :=
  let limit := options.limit.getD 50
  let offset := options.offset.getD 0
  let filtered := dateFilter st options.days
  let total := filtered.length
  let sorted := List.insertionSort dbOrder filtered
  { records := sqlPage sorted limit offset, total := total }

/-- Embedding of `BPTrackerDatabase.getRecordById` (src/lib/db.ts lines
104-108): the row with the given id, or `null`. -/
def getRecordById (st : DbState) (i : Int) : Option DbRecord :=
  st.records.find? (fun r => r.id == i)

/-- Embedding of `BPTrackerDatabase.deleteRecord` (src/lib/db.ts lines
113-117): removes the rows matching the id and reports `changes > 0`. -/
def deleteRecord (st : DbState) (i : Int) : DbState × Bool :=
  let changes := st.records.countP (fun r => r.id == i)
  ({ st with records := st.records.filter (fun r => !(r.id == i)) },
   decide (0 < changes))

/-! ### DELETE /api/records/[id] route (src/unnamed/part_001) -/

/-- The route responses of the DELETE handler, by status code. -/
inductive DeleteRes where
  | status400 (error : String)
  | status404 (error : String)
  | status200 (message : String)
deriving DecidableEq, Repr

/-- Embedding of the `DELETE` handler (src/unnamed/part_001 lines 13-49):
`parseInt(id, 10)` (whose `NaN` is `none`), rejected when `NaN`, below 1,
or when the raw string contains a dot; then `deleteRecord`, 404 when
nothing was deleted. -/
def deleteRoute (idStr : JSStr) (st : DbState) : DbState × DeleteRes :=
  let recordId := jsParseInt idStr
  if recordId.isNone || (match recordId with | none => false | some v => v < 1)
     || idStr.contains '.' then
    (st, .status400 "Invalid record ID")
  else
    match recordId with
    | some v =>
      let res := deleteRecord st v
      if res.2 = false then (res.1, .status404 "Record not found")
      else (res.1, .status200 "Record deleted successfully")
    | none => (st, .status400 "Invalid record ID")

/-! ### GET /api/export route (src/app/components/BPStats.tsx lines 360-418) -/

/-- Lexicographic comparison of character lists, as SQLite compares its
canonical datetime strings. -/
def lexLe : JSStr → JSStr → Bool
  | [], _ => true
  | _ :: _, [] => false
  | a :: as, b :: bs =>
    if a = b then lexLe as bs else decide (a < b)

/-- Modelled from the spec: the date-range test of
`BPTrackerDatabase.getRecordsForExport`, which the export route calls but
which is absent from src/ (only its caller and its tests exist there).  The
spec says the export "filters records to `[from, to]` inclusive on
`recordedAt`"; a record's date is the leading `YYYY-MM-DD` of its stored
timestamp. -/
def exportRangePred (fromParam toParam : Option JSStr) (r : UIRecord) : Bool :=
  (match fromParam with
   | none => true
   | some f => lexLe f (r.recorded_at.take 10)) &&
  (match toParam with
   | none => true
   | some t => lexLe (r.recorded_at.take 10) t)

/-- Modelled from the spec: `BPTrackerDatabase.getRecordsForExport` is
absent from src/; per the spec it returns the stored records whose
`recordedAt` lies in `[from, to]` inclusive. -/
def getRecordsForExport (fromParam toParam : Option JSStr)
    (db : List UIRecord) : List UIRecord :=
  db.filter (exportRangePred fromParam toParam)

/-- The export route responses, by status code. -/
inductive ExportRes where
  | status400 (error : String)
  | status200 (body : JSStr)
deriving DecidableEq, Repr

def msgFromInvalid : String := "Invalid from date format. Expected: YYYY-MM-DD"
def msgToInvalid : String := "Invalid to date format. Expected: YYYY-MM-DD"

/-- The per-parameter validation step of the export `GET` handler: a
parameter fails only when it is provided and `isValidDateString` rejects it. -/
def paramInvalid : Option JSStr → Bool
  | none => false
  | some s => !isValidDateString s

/-- Embedding of the export `GET` handler (src/app/components/BPStats.tsx
lines 360-418): validate `from`, then `to`, then respond with the CSV of
the records the (spec-modelled) store query returns. -/
def exportGET (fromParam toParam : Option JSStr) (db : List UIRecord) : ExportRes :=
  if paramInvalid fromParam then .status400 msgFromInvalid
  else if paramInvalid toParam then .status400 msgToInvalid
  else .status200 (recordsToCSV (getRecordsForExport fromParam toParam db))

/-! ### Auxiliary definitions used by the statements below -/

/-- The ten digit characters. -/
def digitChars : JSStr := ['0', '1', '2', '3', '4', '5', '6', '7', '8', '9']

/-- The strict output order of `getRecords`: strictly newer first, ties on
`recorded_at` resolved by strictly larger `id` first. -/
def dbStrictAfter (a b : DbRecord) : Prop :=
  b.recorded_at < a.recorded_at ∨ (b.recorded_at = a.recorded_at ∧ b.id < a.id)

/-- Sum of the systolic values of a record list. -/
def sysSum (l : List UIRecord) : Int := (l.map (fun r => r.systolic)).sum

/-- Arithmetic mean of the systolic values, over `ℚ`. -/
def qMean (l : List UIRecord) : ℚ := ((sysSum l : Int) : ℚ) / (l.length : ℚ)

/-- Formalization of the claim's phrase "denotes a positive integer with no
fractional part": a nonempty all-digit decimal numeral whose value is at
least 1. -/
def denotesPosIntNoFrac (s : JSStr) : Bool :=
  !s.isEmpty && s.all (fun c => digitChars.contains c) && decide (1 ≤ decVal s)

/-- A five-record store used to instantiate the pagination properties. -/
def st5 : DbState :=
  ⟨[⟨1, 120, 80, 70, 100, none⟩, ⟨2, 125, 82, 71, 200, none⟩, ⟨3, 130, 84, 72, 300, none⟩,
    ⟨4, 135, 86, 73, 400, none⟩, ⟨5, 140, 88, 74, 500, none⟩], 1000⟩

/-- A six-record newest-first list whose recent readings are markedly lower. -/
def trendSample : List UIRecord :=
  [⟨1, 115, 75, 70, [], none⟩, ⟨2, 118, 76, 71, [], none⟩, ⟨3, 116, 74, 69, [], none⟩,
   ⟨4, 135, 85, 75, [], none⟩, ⟨5, 138, 88, 78, [], none⟩, ⟨6, 140, 90, 80, [], none⟩]

/-- Six validated readings whose recent systolic sum is 200 and older sum
185: the exact mean difference is exactly 5, the double one just above. -/
def trendBoundaryW : List UIRecord :=
  [⟨1, 66, 80, 70, [], none⟩, ⟨2, 67, 80, 70, [], none⟩, ⟨3, 67, 80, 70, [], none⟩,
   ⟨4, 61, 80, 70, [], none⟩, ⟨5, 62, 80, 70, [], none⟩, ⟨6, 62, 80, 70, [], none⟩]

/-- The mirror image of `trendBoundaryW`: recent sum 185, older sum 200. -/
def trendBoundaryI : List UIRecord :=
  [⟨1, 61, 80, 70, [], none⟩, ⟨2, 62, 80, 70, [], none⟩, ⟨3, 62, 80, 70, [], none⟩,
   ⟨4, 66, 80, 70, [], none⟩, ⟨5, 67, 80, 70, [], none⟩, ⟨6, 67, 80, 70, [], none⟩]

/-- A three-record store used to instantiate the export filter. -/
def exportSampleDb : List UIRecord :=
  [⟨1, 110, 70, 65, "2024-01-01T08:00:00.000Z".data, some "January record".data⟩,
   ⟨2, 120, 80, 72, "2024-03-15T10:00:00.000Z".data, some "March record".data⟩,
   ⟨3, 130, 90, 80, "2024-06-20T14:00:00.000Z".data, some "June record".data⟩]

/-! ### Lemmas about decimal numerals and `parseInt` -/

theorem digitChar10_mem (d : Nat) : digitChar10 d ∈ digitChars := by
  unfold digitChar10
  have h : d % 10 < 10 := Nat.mod_lt _ (by norm_num)
  interval_cases h2 : d % 10 <;> simp_all <;> decide

theorem digitChar10_val (d : Nat) : (digitChar10 d).toNat - 48 = d % 10 := by
  unfold digitChar10
  have h : d % 10 < 10 := Nat.mod_lt _ (by norm_num)
  interval_cases h2 : d % 10 <;> simp_all

theorem natToDigitsCore_append (fuel : Nat) :
    ∀ n acc, natToDigitsCore fuel n acc = natToDigitsCore fuel n [] ++ acc := by
  induction fuel with
  | zero => intro n acc; rfl
  | succ fuel ih =>
    intro n acc
    by_cases h : n = 0
    · simp [natToDigitsCore, h]
    · simp only [natToDigitsCore, h, if_false]
      rw [ih (n / 10) (digitChar10 (n % 10) :: acc), ih (n / 10) [digitChar10 (n % 10)]]
      simp

theorem natToDigitsCore_mem (fuel : Nat) :
    ∀ n, ∀ c ∈ natToDigitsCore fuel n [], c ∈ digitChars := by
  induction fuel with
  | zero => intro n c hc; simp [natToDigitsCore] at hc
  | succ fuel ih =>
    intro n c hc
    by_cases h : n = 0
    · simp [natToDigitsCore, h] at hc
    · simp only [natToDigitsCore, h, if_false] at hc
      rw [natToDigitsCore_append] at hc
      rcases List.mem_append.mp hc with h1 | h1
      · exact ih _ _ h1
      · simp at h1
        subst h1
        exact digitChar10_mem _

theorem decVal_core (fuel : Nat) :
    ∀ n, n ≤ fuel → decVal (natToDigitsCore fuel n []) = n := by
  induction fuel with
  | zero =>
    intro n hn
    interval_cases n
    rfl
  | succ fuel ih =>
    intro n hn
    by_cases h : n = 0
    · simp [natToDigitsCore, h, decVal]
    · simp only [natToDigitsCore, h, if_false]
      rw [natToDigitsCore_append]
      have hdiv : n / 10 ≤ fuel := by omega
      unfold decVal
      rw [List.foldl_append]
      have hx := ih (n / 10) hdiv
      unfold decVal at hx
      rw [hx]
      simp only [List.foldl_cons, List.foldl_nil]
      rw [digitChar10_val]
      omega

theorem natToDigits_mem (n : Nat) : ∀ c ∈ natToDigits n, c ∈ digitChars := by
  intro c hc
  unfold natToDigits at hc
  by_cases h : n = 0
  · simp [h] at hc
    subst hc
    decide
  · simp only [h, if_false] at hc
    exact natToDigitsCore_mem _ _ _ hc

theorem decVal_natToDigits (n : Nat) : decVal (natToDigits n) = n := by
  unfold natToDigits
  by_cases h : n = 0
  · subst h; rfl
  · simp only [h, if_false]
    exact decVal_core (n + 1) n (by omega)

theorem natToDigits_ne_nil (n : Nat) : natToDigits n ≠ [] := by
  unfold natToDigits
  by_cases h : n = 0
  · simp [h]
  · simp only [h, if_false]
    show natToDigitsCore (n + 1) n [] ≠ []
    simp only [natToDigitsCore, h, if_false]
    rw [natToDigitsCore_append]
    simp

theorem digitChars_isDigit : ∀ c ∈ digitChars, c.isDigit = true := by decide

theorem digitChars_not_ws : ∀ c ∈ digitChars, c.isWhitespace = false := by decide

theorem digitChars_ne_slash : ∀ c ∈ digitChars, c ≠ '/' := by decide

theorem digitChars_ne_dot : ∀ c ∈ digitChars, c ≠ '.' := by decide

theorem digitChars_ne_sign : ∀ c ∈ digitChars, c ≠ '-' ∧ c ≠ '+' := by decide

theorem dropWhile_eq_self_of {p : Char → Bool} :
    ∀ {l : JSStr}, (∀ c ∈ l, p c = false) → l.dropWhile p = l := by
  intro l h
  cases l with
  | nil => rfl
  | cons x xs =>
    rw [List.dropWhile_cons, h x (by simp)]
    simp

theorem jsTrim_eq_self {s : JSStr} (h : ∀ c ∈ s, c.isWhitespace = false) :
    jsTrim s = s := by
  unfold jsTrim
  rw [dropWhile_eq_self_of h]
  rw [dropWhile_eq_self_of (fun c hc => h c (List.mem_reverse.mp hc))]
  simp

theorem leadingDigits_of_digits {s : JSStr} (h0 : s ≠ [])
    (h : ∀ c ∈ s, c ∈ digitChars) :
    leadingDigits s = some (decVal s) := by
  unfold leadingDigits
  rw [List.takeWhile_eq_self_iff.mpr (fun c hc => digitChars_isDigit c (h c hc))]
  simp [List.isEmpty_iff, h0]

theorem jsParseInt_of_digits {s : JSStr} (h0 : s ≠ [])
    (h : ∀ c ∈ s, c ∈ digitChars) :
    jsParseInt s = some ((decVal s : Nat) : Int) := by
  cases s with
  | nil => exact absurd rfl h0
  | cons c t =>
    have hws : ∀ x ∈ c :: t, Char.isWhitespace x = false :=
      fun x hx => digitChars_not_ws x (h x hx)
    have hc := h c (by simp)
    unfold jsParseInt
    rw [dropWhile_eq_self_of hws]
    simp only [(digitChars_ne_sign c hc).1, (digitChars_ne_sign c hc).2, if_false]
    rw [leadingDigits_of_digits (by simp) h]
    rfl

/-! ### Lemmas about `jsSplit` -/

theorem jsSplit_no_sep {sep : Char} :
    ∀ {s : JSStr}, (∀ c ∈ s, c ≠ sep) → jsSplit sep s = [s] := by
  intro s
  induction s with
  | nil => intro h; rfl
  | cons c t ih =>
    intro h
    have hct := h c (by simp)
    have ht := ih (fun x hx => h x (by simp [hx]))
    simp [jsSplit, hct, ht]

theorem jsSplit_append {sep : Char} :
    ∀ {a : JSStr} {b : JSStr}, (∀ c ∈ a, c ≠ sep) →
      jsSplit sep (a ++ sep :: b) = a :: jsSplit sep b := by
  intro a
  induction a with
  | nil => intro b h; simp [jsSplit]
  | cons c t ih =>
    intro b h
    have hct := h c (by simp)
    have ht := ih (b := b) (fun x hx => h x (by simp [hx]))
    simp [jsSplit, hct, ht]

theorem natToDigits_not_ws (n : Nat) : ∀ c ∈ natToDigits n, c.isWhitespace = false :=
  fun c hc => digitChars_not_ws c (natToDigits_mem n c hc)

theorem natToDigits_ne_slash (n : Nat) : ∀ c ∈ natToDigits n, c ≠ '/' :=
  fun c hc => digitChars_ne_slash c (natToDigits_mem n c hc)

theorem jsParseInt_natToDigits (n : Nat) :
    jsParseInt (natToDigits n) = some ((n : Nat) : Int) := by
  rw [jsParseInt_of_digits (natToDigits_ne_nil n) (natToDigits_mem n), decVal_natToDigits]

theorem jsTrim_natToDigits (n : Nat) : jsTrim (natToDigits n) = natToDigits n :=
  jsTrim_eq_self (natToDigits_not_ws n)

/-- C7: for every integer systolic `s` in `[60, 250]` and diastolic `d` in
`[40, 150]`, parsing the two-segment string `"s/d"` (the decimal numerals
joined by a slash) succeeds with exactly those two values and a `null`
heart rate. -/
theorem parse_two_segment_success (s d : Nat)
    (hs1 : 60 ≤ s) (hs2 : s ≤ 250) (hd1 : 40 ≤ d) (hd2 : d ≤ 150) :
    parseBPInput (natToDigits s ++ '/' :: natToDigits d) =
      .success ⟨.num s, .num d, none⟩ := by
  have hws : ∀ c ∈ natToDigits s ++ '/' :: natToDigits d, c.isWhitespace = false := by
    intro c hc
    rcases List.mem_append.mp hc with h1 | h1
    · exact natToDigits_not_ws s c h1
    · rcases List.mem_cons.mp h1 with h2 | h2
      · subst h2; decide
      · exact natToDigits_not_ws d c h2
  have htrim := jsTrim_eq_self hws
  have hsplit : jsSplit '/' (natToDigits s ++ '/' :: natToDigits d) =
      [natToDigits s, natToDigits d] := by
    rw [jsSplit_append (natToDigits_ne_slash s), jsSplit_no_sep (natToDigits_ne_slash d)]
  have hne : (natToDigits s ++ '/' :: natToDigits d).isEmpty = false := by
    simp [List.isEmpty_iff]
  have hlt : ¬ ((s : Int) < 60) := by omega
  have hgt : ¬ ((250 : Int) < (s : Int)) := by omega
  have hltd : ¬ ((d : Int) < 40) := by omega
  have hgtd : ¬ ((150 : Int) < (d : Int)) := by omega
  unfold parseBPInput
  rw [htrim]
  simp only [hne, hsplit, List.length_cons, List.length_nil, jsTrim_natToDigits,
    jsParseInt_natToDigits]
  simp [toJSNum, JSNum.isNaN, JSNum.ltInt, JSNum.gtInt, hlt, hgt, hltd, hgtd]

/-- C10: for every input whose trimmed form splits on `/` into exactly three
segments with an empty (after trimming) third segment and in-range systolic
and diastolic values, the parse fails with exactly the single error
"Heart rate must be between 40 and 200" instead of treating the heart rate
as absent. -/
theorem parse_empty_heart_rate_segment (input sSeg dSeg hSeg : JSStr)
    (hsplit : jsSplit '/' (jsTrim input) = [sSeg, dSeg, hSeg])
    (hh : jsTrim hSeg = [])
    (sv dv : Int)
    (hsv : jsParseInt (jsTrim sSeg) = some sv) (h60 : 60 ≤ sv) (h250 : sv ≤ 250)
    (hdv : jsParseInt (jsTrim dSeg) = some dv) (h40 : 40 ≤ dv) (h150 : dv ≤ 150) :
    parseBPInput input = .failure [msgHrRange] := by
  have hne : (jsTrim input).isEmpty = false := by
    cases htt : jsTrim input with
    | nil => rw [htt] at hsplit; simp [jsSplit] at hsplit
    | cons x xs => simp
  have hs60 : ¬ (sv < 60) := by omega
  have hs250 : ¬ (250 < sv) := by omega
  have hd40 : ¬ (dv < 40) := by omega
  have hd150 : ¬ (150 < dv) := by omega
  unfold parseBPInput
  simp only [hne, hsplit, List.length_cons, List.length_nil, hh, hsv, hdv]
  simp [toJSNum, JSNum.isNaN, JSNum.ltInt, JSNum.gtInt, jsIsNaNOpt, jsOptLtInt, jsOptGtInt,
    hh, hsv, hdv, hs60, hs250, hd40, hd150]

/-- C3: for every input whose trimmed form splits on `/` into two or three
segments, whenever the per-field validations produce any errors at all the
parse fails with exactly the concatenation of the systolic, diastolic and
heart-rate error lists — every applicable range/parse error across multiple
independently failing fields is returned together, never short-circuited at
the first failing field. -/
theorem parse_accumulates_field_errors (input p0 p1 : JSStr) (rest : List JSStr)
    (hsplit : jsSplit '/' (jsTrim input) = p0 :: p1 :: rest)
    (hlen : rest.length ≤ 1)
    (hne : sysFieldErrors p0 ++ diaFieldErrors p1 ++ hrFieldErrors rest.head? ≠ []) :
    parseBPInput input =
      .failure (sysFieldErrors p0 ++ diaFieldErrors p1 ++ hrFieldErrors rest.head?) := by
  have hne0 : (jsTrim input).isEmpty = false := by
    cases htt : jsTrim input with
    | nil => rw [htt] at hsplit; simp [jsSplit] at hsplit
    | cons x xs => simp
  rcases rest with _ | ⟨r0, rtail⟩
  · unfold parseBPInput
    simp only [sysFieldErrors, diaFieldErrors, hrFieldErrors] at hne ⊢
    simp only [hne0, hsplit]
    simp at hne ⊢
    tauto
  · rcases rtail with _ | ⟨r1, rtail2⟩
    · unfold parseBPInput
      simp only [sysFieldErrors, diaFieldErrors, hrFieldErrors] at hne ⊢
      simp only [hne0, hsplit]
      simp at hne ⊢
      tauto
    · simp at hlen

/-- C4: `classifyBP` is total and evaluates its rules from most severe to
least with first match winning: crisis iff systolic ≥ 180 or diastolic
≥ 120, else high stage 2 iff systolic ≥ 140 or diastolic ≥ 90, else high
stage 1 iff systolic ≥ 130 or diastolic ≥ 80, else elevated iff systolic
≥ 120 and diastolic < 80, else normal; in particular `classifyBP 185 95`
is crisis, `classifyBP 120 85` is high stage 1 and `classifyBP 118 76` is
normal. -/
theorem classifyBP_first_match_severity (s d : Int) :
    (classifyBP s d = .crisis ↔ (180 ≤ s ∨ 120 ≤ d))
    ∧ (classifyBP s d = .high2 ↔ (¬(180 ≤ s ∨ 120 ≤ d) ∧ (140 ≤ s ∨ 90 ≤ d)))
    ∧ (classifyBP s d = .high1 ↔
        (¬(180 ≤ s ∨ 120 ≤ d) ∧ ¬(140 ≤ s ∨ 90 ≤ d) ∧ (130 ≤ s ∨ 80 ≤ d)))
    ∧ (classifyBP s d = .elevated ↔
        (¬(180 ≤ s ∨ 120 ≤ d) ∧ ¬(140 ≤ s ∨ 90 ≤ d) ∧ ¬(130 ≤ s ∨ 80 ≤ d) ∧
          (120 ≤ s ∧ d < 80)))
    ∧ (classifyBP s d = .normal ↔
        (¬(180 ≤ s ∨ 120 ≤ d) ∧ ¬(140 ≤ s ∨ 90 ≤ d) ∧ ¬(130 ≤ s ∨ 80 ≤ d) ∧
          ¬(120 ≤ s ∧ d < 80)))
    ∧ classifyBP 185 95 = .crisis ∧ classifyBP 120 85 = .high1 ∧ classifyBP 118 76 = .normal := by
  refine ⟨?_, ?_, ?_, ?_, ?_, by decide, by decide, by decide⟩ <;>
    · unfold classifyBP
      split_ifs with h1 h2 h3 h4 <;> simp_all

/-- C9: deleting a stored id once returns `true`; deleting it again returns
`false` and leaves the store unchanged (a no-op, not an error); and
`getRecordById` for that id returns `none` after both the first and the
second deletion. -/
theorem deleteRecord_idempotent (st : DbState) (i : Int)
    (h : ∃ r ∈ st.records, r.id = i) :
    (deleteRecord st i).2 = true
    ∧ (deleteRecord (deleteRecord st i).1 i).2 = false
    ∧ (deleteRecord (deleteRecord st i).1 i).1 = (deleteRecord st i).1
    ∧ getRecordById (deleteRecord st i).1 i = none
    ∧ getRecordById (deleteRecord (deleteRecord st i).1 i).1 i = none := by
  obtain ⟨r, hr, hid⟩ := h
  have hmem1 : ∀ x ∈ (deleteRecord st i).1.records, (x.id == i) = false := by
    intro x hx
    simp only [deleteRecord] at hx
    have := (List.mem_filter.mp hx).2
    simpa using this
  refine ⟨?_, ?_, ?_, ?_, ?_⟩
  · simp only [deleteRecord]
    simp only [decide_eq_true_eq]
    exact List.countP_pos_iff.mpr ⟨r, hr, by simp [hid]⟩
  · simp only [deleteRecord]
    simp only [decide_eq_false_iff_not]
    intro hpos
    obtain ⟨x, hx, hxid⟩ := List.countP_pos_iff.mp hpos
    exact absurd hxid (by simp [hmem1 x hx])
  · simp only [deleteRecord]
    congr 1
    exact List.filter_eq_self.mpr (fun x hx => by simp [hmem1 x hx])
  · exact List.find?_eq_none.mpr (fun x hx => by simp [hmem1 x hx])
  · have hsub : ∀ x ∈ (deleteRecord (deleteRecord st i).1 i).1.records,
        (x.id == i) = false := by
      intro x hx
      simp only [deleteRecord] at hx
      have := (List.mem_filter.mp hx).2
      simpa using this
    exact List.find?_eq_none.mpr (fun x hx => by simp [hsub x hx])

/-- C2: for every store state with distinct record ids and every query, the
returned records are ordered by `recorded_at` descending with ties broken
by `id` descending; the returned `total` is the count of records matching
the date filter, independent of the supplied `limit` and `offset`; and an
unspecified `limit` behaves exactly as `limit = 50`. -/
theorem getRecords_order_and_total (st : DbState) (options : PaginationOptions)
    (hids : (st.records.map (fun r => r.id)).Nodup) :
    List.Pairwise dbStrictAfter (getRecords st options).records
    ∧ (getRecords st options).total = (dateFilter st options.days).length
    ∧ (∀ l o : Option Int,
        (getRecords st { limit := l, offset := o, days := options.days }).total =
          (getRecords st options).total)
    ∧ getRecords st { limit := none, offset := options.offset, days := options.days } =
        getRecords st { limit := some 50, offset := options.offset, days := options.days } := by
  refine ⟨?_, rfl, fun l o => rfl, rfl⟩
  have hsubF : (dateFilter st options.days).Sublist st.records := by
    cases hdq : options.days with
    | none => simp only [dateFilter]; exact List.Sublist.refl _
    | some dd =>
      by_cases hdd : 0 < dd
      · simp only [dateFilter, if_pos hdd]; exact List.filter_sublist _
      · simp only [dateFilter, if_neg hdd]; exact List.Sublist.refl _
  have hnodupF : ((dateFilter st options.days).map (fun r => r.id)).Nodup :=
    List.Nodup.sublist (hsubF.map _) hids
  have hsorted : List.Sorted dbOrder (List.insertionSort dbOrder (dateFilter st options.days)) :=
    List.sorted_insertionSort dbOrder _
  have hperm : (List.insertionSort dbOrder (dateFilter st options.days)).Perm
      (dateFilter st options.days) := List.perm_insertionSort dbOrder _
  have hnodupS : ((List.insertionSort dbOrder (dateFilter st options.days)).map
      (fun r => r.id)).Nodup := ((hperm.symm).map _).nodup hnodupF
  have hpwids : List.Pairwise (fun a b : DbRecord => a.id ≠ b.id)
      (List.insertionSort dbOrder (dateFilter st options.days)) :=
    List.pairwise_map.mp hnodupS
  have hstrict : List.Pairwise dbStrictAfter
      (List.insertionSort dbOrder (dateFilter st options.days)) := by
    have := List.Pairwise.and hsorted hpwids
    exact this.imp (fun hab => by
      unfold dbOrder dbStrictAfter at *
      omega)
  have hpage : ((getRecords st options).records).Sublist
      (List.insertionSort dbOrder (dateFilter st options.days)) := by
    show (sqlPage _ _ _).Sublist _
    unfold sqlPage
    by_cases ho : (options.offset.getD 0) ≤ 0
    · rw [if_pos ho]
      by_cases hl : (options.limit.getD 50) < 0
      · rw [if_pos hl]
      · rw [if_neg hl]; exact List.take_sublist _ _
    · rw [if_neg ho]
      by_cases hl : (options.limit.getD 50) < 0
      · rw [if_pos hl]; exact List.drop_sublist _ _
      · rw [if_neg hl]
        exact (List.take_sublist _ _).trans (List.drop_sublist _ _)
  exact List.Pairwise.sublist hpage hstrict

theorem foldl_systolic (l : List UIRecord) :
    ∀ a : Int, l.foldl (fun sum r => sum + r.systolic) a = a + sysSum l := by
  induction l with
  | nil => intro a; simp [sysSum]
  | cons x xs ih =>
    intro a
    simp only [List.foldl_cons, ih, sysSum, List.map_cons, List.sum_cons]
    ring

/-! ### Lemmas about the binary64 model -/

theorem log2fuel_spec :
    ∀ fuel n, 1 ≤ n → n ≤ fuel →
      2 ^ log2fuel fuel n ≤ n ∧ n < 2 ^ (log2fuel fuel n + 1) := by
  intro fuel
  induction fuel with
  | zero => intro n h1 h2; omega
  | succ fuel ih =>
    intro n h1 h2
    by_cases h : 2 ≤ n
    · have hdiv : n / 2 ≤ fuel := by omega
      have h1d : 1 ≤ n / 2 := by omega
      obtain ⟨hlo, hhi⟩ := ih (n / 2) h1d hdiv
      simp only [log2fuel, if_pos h]
      rw [pow_succ] at hhi
      rw [pow_succ, pow_succ]
      omega
    · have hn1 : n = 1 := by omega
      subst hn1
      simp [log2fuel]

theorem natLog2_spec (n : Nat) (h : 1 ≤ n) :
    2 ^ natLog2 n ≤ n ∧ n < 2 ^ (natLog2 n + 1) :=
  log2fuel_spec n n h le_rfl

theorem rneDiv_error (N D : Int) (hD : 0 < D) :
    |((rneDiv N D : Int) : ℚ) - (N : ℚ) / (D : ℚ)| ≤ 1 / 2 := by
  have hmod : 0 ≤ Int.emod N D := Int.emod_nonneg N (by omega)
  have hmodlt : Int.emod N D < D := Int.emod_lt_of_pos N hD
  have hdiv : D * Int.ediv N D + Int.emod N D = N := Int.ediv_add_emod N D
  have hDQ : (0:ℚ) < (D:ℚ) := by exact_mod_cast hD
  have hNQ : (N:ℚ) = (D:ℚ) * (Int.ediv N D : ℚ) + (Int.emod N D : ℚ) := by
    exact_mod_cast hdiv.symm
  have hfrac : (N:ℚ) / (D:ℚ) = (Int.ediv N D : ℚ) + (Int.emod N D : ℚ) / (D:ℚ) := by
    rw [hNQ]
    field_simp
    ring
  have hrQ : (0:ℚ) ≤ (Int.emod N D : ℚ) / (D:ℚ) := by positivity
  simp only [rneDiv]
  split_ifs with h1 h2 h3
  · have hhalf : (Int.emod N D : ℚ) / (D:ℚ) < 1 / 2 := by
      rw [div_lt_div_iff₀ hDQ (by norm_num : (0:ℚ) < 2)]
      have : (2 * Int.emod N D : ℚ) < (D : ℚ) := by exact_mod_cast h1
      linarith
    rw [hfrac, abs_le]
    constructor <;> linarith
  · have hhalf : 1 / 2 < (Int.emod N D : ℚ) / (D:ℚ) := by
      rw [div_lt_div_iff₀ (by norm_num : (0:ℚ) < 2) hDQ]
      have : (D : ℚ) < (2 * Int.emod N D : ℚ) := by exact_mod_cast h2
      linarith
    have hlt1 : (Int.emod N D : ℚ) / (D:ℚ) < 1 := by
      rw [div_lt_one hDQ]
      exact_mod_cast hmodlt
    rw [hfrac]
    push_cast
    rw [abs_le]
    constructor <;> linarith
  · have hhalf : (Int.emod N D : ℚ) / (D:ℚ) = 1 / 2 := by
      rw [div_eq_div_iff hDQ.ne' (by norm_num : (2:ℚ) ≠ 0)]
      have : (2 * Int.emod N D : ℚ) = (D : ℚ) := by exact_mod_cast le_antisymm (by omega) (by omega)
      linarith
    rw [hfrac, hhalf, abs_le]
    constructor <;> linarith
  · have hhalf : (Int.emod N D : ℚ) / (D:ℚ) = 1 / 2 := by
      rw [div_eq_div_iff hDQ.ne' (by norm_num : (2:ℚ) ≠ 0)]
      have : (2 * Int.emod N D : ℚ) = (D : ℚ) := by exact_mod_cast le_antisymm (by omega) (by omega)
      linarith
    rw [hfrac, hhalf]
    push_cast
    rw [abs_le]
    constructor <;> linarith

theorem dyadic_align (x : Dyadic) (e : Int) (he : e ≤ x.e) :
    ((x.m * ((2 ^ (x.e - e).toNat : Nat) : Int) : Int) : ℚ) * (2:ℚ) ^ e = x.toRat := by
  unfold Dyadic.toRat
  push_cast
  rw [mul_assoc]
  congr 1
  rw [← zpow_natCast (2:ℚ) (x.e - e).toNat,
    ← zpow_add₀ (by norm_num : (2:ℚ) ≠ 0)]
  congr 1
  omega

theorem f64DivNat_spec (a : Int) (d : Nat) (ha : a ≠ 0) (hd : 1 ≤ d) :
    (f64DivNat a d).e = floorLog2Q a.natAbs d - 52 ∧
    |(f64DivNat a d).toRat - (a : ℚ) / (d : ℚ)| ≤
      (2:ℚ) ^ (floorLog2Q a.natAbs d - 53) := by
  have hcond : ¬ (a = 0 ∨ d = 0) := by omega
  have hdQ : (0:ℚ) < (d:ℚ) := by exact_mod_cast hd
  unfold f64DivNat
  rw [if_neg hcond]
  dsimp only
  by_cases hs : 0 ≤ 52 - floorLog2Q a.natAbs d
  · rw [if_pos hs]
    refine ⟨by omega, ?_⟩
    set s := 52 - floorLog2Q a.natAbs d with hsdef
    set K : ℚ := (2:ℚ) ^ s.toNat with hK
    have hKpos : (0:ℚ) < K := by positivity
    have herr := rneDiv_error (a * ((2 ^ s.toNat : Nat) : Int)) (d : Int) (by omega)
    have hNcast : ((a * ((2 ^ s.toNat : Nat) : Int) : Int) : ℚ) = (a:ℚ) * K := by
      push_cast
      rfl
    rw [hNcast] at herr
    have hzpow : (2:ℚ) ^ (-s) = K⁻¹ := by
      rw [zpow_neg]
      congr 1
      rw [hK, ← zpow_natCast (2:ℚ) s.toNat]
      congr 1
      omega
    have htoRat : (Dyadic.toRat ⟨rneDiv (a * ((2 ^ s.toNat : Nat) : Int)) (d : Int), -s⟩) =
        ((rneDiv (a * ((2 ^ s.toNat : Nat) : Int)) (d : Int) : Int) : ℚ) * K⁻¹ := by
      unfold Dyadic.toRat
      rw [hzpow]
    rw [htoRat]
    have hdiffeq :
        ((rneDiv (a * ((2 ^ s.toNat : Nat) : Int)) (d : Int) : Int) : ℚ) * K⁻¹ -
          (a:ℚ) / (d:ℚ) =
        (((rneDiv (a * ((2 ^ s.toNat : Nat) : Int)) (d : Int) : Int) : ℚ) -
          (a:ℚ) * K / (d:ℚ)) * K⁻¹ := by
      field_simp
      ring
    rw [hdiffeq, abs_mul, abs_of_pos (inv_pos.mpr hKpos)]
    have hbound := mul_le_mul_of_nonneg_right herr (le_of_lt (inv_pos.mpr hKpos))
    refine hbound.trans ?_
    rw [← hzpow]
    have : (2:ℚ) ^ (floorLog2Q a.natAbs d - 53) = (2:ℚ) ^ (-s) / 2 := by
      rw [show floorLog2Q a.natAbs d - 53 = -s + -1 from by omega,
        zpow_add₀ (by norm_num : (2:ℚ) ≠ 0), zpow_neg_one]
      ring
    rw [this]
    linarith [zpow_pos (by norm_num : (0:ℚ) < 2) (-s)]
  · rw [if_neg hs]
    refine ⟨by omega, ?_⟩
    set s := 52 - floorLog2Q a.natAbs d with hsdef
    set K : ℚ := (2:ℚ) ^ (-s).toNat with hK
    have hKpos : (0:ℚ) < K := by positivity
    have herr := rneDiv_error a ((d * 2 ^ (-s).toNat : Nat) : Int)
      (by positivity)
    have hDcast : (((d * 2 ^ (-s).toNat : Nat) : Int) : ℚ) = (d:ℚ) * K := by
      push_cast
      rfl
    rw [hDcast] at herr
    have hzpow : (2:ℚ) ^ (-s) = K := by
      rw [hK, ← zpow_natCast (2:ℚ) (-s).toNat]
      congr 1
      omega
    have htoRat : (Dyadic.toRat ⟨rneDiv a ((d * 2 ^ (-s).toNat : Nat) : Int), -s⟩) =
        ((rneDiv a ((d * 2 ^ (-s).toNat : Nat) : Int) : Int) : ℚ) * K := by
      unfold Dyadic.toRat
      rw [hzpow]
    rw [htoRat]
    have hdiffeq :
        ((rneDiv a ((d * 2 ^ (-s).toNat : Nat) : Int) : Int) : ℚ) * K -
          (a:ℚ) / (d:ℚ) =
        (((rneDiv a ((d * 2 ^ (-s).toNat : Nat) : Int) : Int) : ℚ) -
          (a:ℚ) / ((d:ℚ) * K)) * K := by
      field_simp
      ring
    rw [hdiffeq, abs_mul, abs_of_pos hKpos]
    have hbound := mul_le_mul_of_nonneg_right herr (le_of_lt hKpos)
    refine hbound.trans ?_
    rw [← hzpow]
    have : (2:ℚ) ^ (floorLog2Q a.natAbs d - 53) = (2:ℚ) ^ (-s) / 2 := by
      rw [show floorLog2Q a.natAbs d - 53 = -s + -1 from by omega,
        zpow_add₀ (by norm_num : (2:ℚ) ≠ 0), zpow_neg_one]
      ring
    rw [this]
    linarith [zpow_pos (by norm_num : (0:ℚ) < 2) (-s)]

theorem f64Sub_error (x y : Dyadic) :
    |(f64Sub x y).toRat - (x.toRat - y.toRat)| ≤ |x.toRat - y.toRat| / 2 ^ 53 := by
  unfold f64Sub
  have hex : min x.e y.e ≤ x.e := min_le_left _ _
  have hey : min x.e y.e ≤ y.e := min_le_right _ _
  have hMe : ((x.m * ((2 ^ (x.e - min x.e y.e).toNat : Nat) : Int) -
        y.m * ((2 ^ (y.e - min x.e y.e).toNat : Nat) : Int) : Int) : ℚ) *
        (2:ℚ) ^ (min x.e y.e) = x.toRat - y.toRat := by
    push_cast
    rw [sub_mul]
    rw [show ((x.m : ℚ) * (2:ℚ) ^ (x.e - min x.e y.e).toNat * (2:ℚ) ^ (min x.e y.e) =
        ((x.m * ((2 ^ (x.e - min x.e y.e).toNat : Nat) : Int) : Int) : ℚ) *
          (2:ℚ) ^ (min x.e y.e)) from by push_cast; ring]
    rw [show ((y.m : ℚ) * (2:ℚ) ^ (y.e - min x.e y.e).toNat * (2:ℚ) ^ (min x.e y.e) =
        ((y.m * ((2 ^ (y.e - min x.e y.e).toNat : Nat) : Int) : Int) : ℚ) *
          (2:ℚ) ^ (min x.e y.e)) from by push_cast; ring]
    rw [dyadic_align x _ hex, dyadic_align y _ hey]
  set M : Int := x.m * ((2 ^ (x.e - min x.e y.e).toNat : Nat) : Int) -
    y.m * ((2 ^ (y.e - min x.e y.e).toNat : Nat) : Int) with hMdef
  by_cases h0 : M = 0
  · rw [if_pos h0]
    rw [← hMe, h0]
    simp [Dyadic.toRat]
  · rw [if_neg h0]
    by_cases ht : natLog2 M.natAbs ≤ 52
    · rw [if_pos ht]
      have : Dyadic.toRat ⟨M, min x.e y.e⟩ = x.toRat - y.toRat := by
        unfold Dyadic.toRat
        exact hMe
      rw [this]
      simp only [sub_self, abs_zero]
      positivity
    · rw [if_neg ht]
      push_neg at ht
      set t := natLog2 M.natAbs with htdef
      set e := min x.e y.e with hedef
      have hK : (0:ℤ) < ((2 ^ (t - 52) : Nat) : Int) := by positivity
      have herr := rneDiv_error M ((2 ^ (t - 52) : Nat) : Int) hK
      set P : ℚ := (2:ℚ) ^ (e + ((t:Int) - 52)) with hPdef
      have hPpos : (0:ℚ) < P := by
        rw [hPdef]
        exact zpow_pos (by norm_num) _
      have hKQ : (((2 ^ (t - 52) : Nat) : Int) : ℚ) = (2:ℚ) ^ (t - 52 : Nat) := by
        push_cast
        rfl
      rw [hKQ] at herr
      have htoRat : Dyadic.toRat ⟨rneDiv M ((2 ^ (t - 52) : Nat) : Int), e + ((t:Int) - 52)⟩ =
          ((rneDiv M ((2 ^ (t - 52) : Nat) : Int) : Int) : ℚ) * P := by
        unfold Dyadic.toRat
        rfl
      rw [htoRat, ← hMe]
      have hPsplit : (M : ℚ) * (2:ℚ) ^ e =
          ((M : ℚ) / (2:ℚ) ^ (t - 52 : Nat)) * P := by
        rw [hPdef]
        rw [show (e + ((t:Int) - 52)) = e + ((t - 52 : Nat) : Int) from by omega]
        rw [zpow_add₀ (by norm_num : (2:ℚ) ≠ 0), zpow_natCast]
        field_simp
        ring
      nth_rewrite 1 [hPsplit]
      rw [show ((rneDiv M ((2 ^ (t - 52) : Nat) : Int) : Int) : ℚ) * P -
          (M : ℚ) / (2:ℚ) ^ (t - 52 : Nat) * P =
          (((rneDiv M ((2 ^ (t - 52) : Nat) : Int) : Int) : ℚ) -
            (M : ℚ) / (2:ℚ) ^ (t - 52 : Nat)) * P from by ring]
      rw [abs_mul, abs_of_pos hPpos]
      have hup := mul_le_mul_of_nonneg_right herr (le_of_lt hPpos)
      refine hup.trans ?_
      -- (1/2) * P ≤ |M * 2^e| / 2^53, using 2^t ≤ |M|
      have hMlb : (2:ℚ) ^ t ≤ |(M:ℚ)| := by
        rw [← Int.cast_abs]
        have h1 : 2 ^ t ≤ M.natAbs := (natLog2_spec M.natAbs (by omega)).1
        have h2 : (2 ^ t : ℤ) ≤ |M| := by
          rw [Int.abs_eq_natAbs]
          exact_mod_cast h1
        exact_mod_cast h2
      have habs : |(M:ℚ) * (2:ℚ) ^ e| = |(M:ℚ)| * (2:ℚ) ^ e := by
        rw [abs_mul, abs_of_pos (zpow_pos (by norm_num : (0:ℚ) < 2) e)]
      rw [habs]
      have hrhs : (2:ℚ) ^ t * (2:ℚ) ^ e / 2 ^ 53 ≤ |(M:ℚ)| * (2:ℚ) ^ e / 2 ^ 53 := by
        have hepos := zpow_pos (by norm_num : (0:ℚ) < 2) e
        have := mul_le_mul_of_nonneg_right hMlb (le_of_lt hepos)
        linarith
      refine le_trans (le_of_eq ?_) hrhs
      rw [hPdef]
      rw [show (e + ((t:Int) - 52)) = ((t:Int) + e) - 52 from by omega]
      rw [zpow_sub₀ (by norm_num : (2:ℚ) ≠ 0), zpow_add₀ (by norm_num : (2:ℚ) ≠ 0)]
      rw [zpow_natCast]
      norm_num
      ring

theorem Dyadic.ltInt_iff (x : Dyadic) (k : Int) :
    x.ltInt k = true ↔ x.toRat < (k : ℚ) := by
  unfold Dyadic.ltInt Dyadic.toRat
  by_cases he : 0 ≤ x.e
  · rw [if_pos he]
    have hz : (2:ℚ) ^ x.e = ((2 ^ x.e.toNat : Nat) : ℚ) := by
      push_cast
      rw [← zpow_natCast (2:ℚ) x.e.toNat]
      congr 1
      omega
    rw [hz]
    simp only [decide_eq_true_eq]
    constructor <;> intro h <;> exact_mod_cast h
  · rw [if_neg he]
    have hKpos : (0:ℚ) < ((2 ^ (-x.e).toNat : Nat) : ℚ) := by positivity
    have hz : (2:ℚ) ^ x.e = (((2 ^ (-x.e).toNat : Nat) : ℚ))⁻¹ := by
      push_cast
      rw [← zpow_natCast (2:ℚ) (-x.e).toNat, ← zpow_neg]
      congr 1
      omega
    rw [hz]
    simp only [decide_eq_true_eq]
    rw [← div_eq_mul_inv, div_lt_iff₀ hKpos]
    constructor <;> intro h <;> exact_mod_cast h

theorem Dyadic.gtInt_iff (x : Dyadic) (k : Int) :
    x.gtInt k = true ↔ (k : ℚ) < x.toRat := by
  unfold Dyadic.gtInt Dyadic.toRat
  by_cases he : 0 ≤ x.e
  · rw [if_pos he]
    have hz : (2:ℚ) ^ x.e = ((2 ^ x.e.toNat : Nat) : ℚ) := by
      push_cast
      rw [← zpow_natCast (2:ℚ) x.e.toNat]
      congr 1
      omega
    rw [hz]
    simp only [decide_eq_true_eq]
    constructor <;> intro h <;> exact_mod_cast h
  · rw [if_neg he]
    have hKpos : (0:ℚ) < ((2 ^ (-x.e).toNat : Nat) : ℚ) := by positivity
    have hz : (2:ℚ) ^ x.e = (((2 ^ (-x.e).toNat : Nat) : ℚ))⁻¹ := by
      push_cast
      rw [← zpow_natCast (2:ℚ) (-x.e).toNat, ← zpow_neg]
      congr 1
      omega
    rw [hz]
    simp only [decide_eq_true_eq]
    rw [← div_eq_mul_inv, lt_div_iff₀ hKpos]
    constructor <;> intro h <;> exact_mod_cast h

theorem floorLog2Q_range (a : Nat) (h1 : 180 ≤ a) (h2 : a ≤ 750) :
    5 ≤ floorLog2Q a 3 ∧ floorLog2Q a 3 ≤ 8 := by
  obtain ⟨hl, hh⟩ := natLog2_spec a (by omega)
  have h7 : 7 ≤ natLog2 a := by
    by_contra h
    push_neg at h
    have : a < 2 ^ 7 :=
      lt_of_lt_of_le hh (Nat.pow_le_pow_right (by norm_num) (by omega))
    omega
  have h9 : natLog2 a ≤ 9 := by
    by_contra h
    push_neg at h
    have : 2 ^ 10 ≤ a :=
      le_trans (Nat.pow_le_pow_right (by norm_num) (by omega)) hl
    omega
  have h3 : natLog2 3 = 1 := by decide
  unfold floorLog2Q
  rw [h3]
  dsimp only
  split_ifs <;> omega

theorem sysSum_bounds (lo hi : Int) :
    ∀ l : List UIRecord, (∀ r ∈ l, lo ≤ r.systolic ∧ r.systolic ≤ hi) →
      lo * l.length ≤ sysSum l ∧ sysSum l ≤ hi * l.length := by
  intro l
  induction l with
  | nil => intro _; simp [sysSum]
  | cons x xs ih =>
    intro h
    have hx := h x (by simp)
    have ihh := ih (fun r hr => h r (by simp [hr]))
    unfold sysSum at ihh ⊢
    simp only [List.map_cons, List.sum_cons, List.length_cons]
    push_cast
    constructor <;> nlinarith [ihh.1, ihh.2, hx.1, hx.2]

theorem trendDiff_error (A B : Int)
    (hA1 : 180 ≤ A) (hA2 : A ≤ 750) (hB1 : 180 ≤ B) (hB2 : B ≤ 750) :
    |(f64Sub (f64DivNat A 3) (f64DivNat B 3)).toRat - ((A : ℚ) - (B : ℚ)) / 3| ≤ 1 / 1000 := by
  have htA := floorLog2Q_range A.natAbs (by omega) (by omega)
  have htB := floorLog2Q_range B.natAbs (by omega) (by omega)
  obtain ⟨heA, herrA⟩ := f64DivNat_spec A 3 (by omega) (by norm_num)
  obtain ⟨heB, herrB⟩ := f64DivNat_spec B 3 (by omega) (by norm_num)
  have hsmall : (2:ℚ) ^ (-45 : ℤ) ≤ 1/4000 := by
    rw [zpow_neg, show ((45:ℤ)) = ((45:ℕ):ℤ) from rfl, zpow_natCast]
    norm_num
  have hbA : |(f64DivNat A 3).toRat - (A:ℚ)/3| ≤ 1/4000 := by
    refine herrA.trans (le_trans ?_ hsmall)
    exact zpow_le_zpow_right₀ (by norm_num) (by omega)
  have hbB : |(f64DivNat B 3).toRat - (B:ℚ)/3| ≤ 1/4000 := by
    refine herrB.trans (le_trans ?_ hsmall)
    exact zpow_le_zpow_right₀ (by norm_num) (by omega)
  obtain ⟨he1, he2⟩ := abs_le.mp hbA
  obtain ⟨hf1, hf2⟩ := abs_le.mp hbB
  have hAQ1 : (180:ℚ) ≤ (A:ℚ) := by exact_mod_cast hA1
  have hAQ2 : (A:ℚ) ≤ 750 := by exact_mod_cast hA2
  have hBQ1 : (180:ℚ) ≤ (B:ℚ) := by exact_mod_cast hB1
  have hBQ2 : (B:ℚ) ≤ 750 := by exact_mod_cast hB2
  have hxy : |(f64DivNat A 3).toRat - (f64DivNat B 3).toRat| ≤ 191 := by
    rw [abs_le]
    constructor <;> linarith
  have hsub := f64Sub_error (f64DivNat A 3) (f64DivNat B 3)
  have hsub2 : |(f64Sub (f64DivNat A 3) (f64DivNat B 3)).toRat -
      ((f64DivNat A 3).toRat - (f64DivNat B 3).toRat)| ≤ 1/4000 := by
    refine hsub.trans (le_trans ?_ (by norm_num : (191:ℚ)/2^53 ≤ 1/4000))
    exact div_le_div_of_nonneg_right hxy (by positivity)
  obtain ⟨hg1, hg2⟩ := abs_le.mp hsub2
  rw [abs_le]
  constructor <;> linarith

/-- C5 counterexample: six validated readings whose recent systolic sum is
200 and older sum 185 have an exact mean difference of exactly 5, which
does not exceed 5, so the claim requires Stable; the program's binary64
arithmetic computes `66.66666666666667 - 61.666666666666664 = 5 + 2^-47`
and reports Worsening.  The mirrored list gives exact difference -5 (not
below -5, so Stable per the claim) yet reports Improving. -/
theorem bpTrend_exact_threshold_counterexample :
    bpTrend trendBoundaryW = .worsening
    ∧ qMean (trendBoundaryW.take (min 3 (trendBoundaryW.length / 2))) -
        qMean ((trendBoundaryW.drop (trendBoundaryW.length / 2)).take 3) = 5
    ∧ ¬ (5 < (5:ℚ))
    ∧ bpTrend trendBoundaryI = .improving
    ∧ qMean (trendBoundaryI.take (min 3 (trendBoundaryI.length / 2))) -
        qMean ((trendBoundaryI.drop (trendBoundaryI.length / 2)).take 3) = -5
    ∧ ¬ ((-5:ℚ) < -5) := by
  have e1 : trendBoundaryW.take (min 3 (trendBoundaryW.length / 2)) =
      [⟨1, 66, 80, 70, [], none⟩, ⟨2, 67, 80, 70, [], none⟩, ⟨3, 67, 80, 70, [], none⟩] := by
    decide
  have e2 : (trendBoundaryW.drop (trendBoundaryW.length / 2)).take 3 =
      [⟨4, 61, 80, 70, [], none⟩, ⟨5, 62, 80, 70, [], none⟩, ⟨6, 62, 80, 70, [], none⟩] := by
    decide
  have e3 : trendBoundaryI.take (min 3 (trendBoundaryI.length / 2)) =
      [⟨1, 61, 80, 70, [], none⟩, ⟨2, 62, 80, 70, [], none⟩, ⟨3, 62, 80, 70, [], none⟩] := by
    decide
  have e4 : (trendBoundaryI.drop (trendBoundaryI.length / 2)).take 3 =
      [⟨4, 66, 80, 70, [], none⟩, ⟨5, 67, 80, 70, [], none⟩, ⟨6, 67, 80, 70, [], none⟩] := by
    decide
  refine ⟨by decide, ?_, by norm_num, by decide, ?_, by norm_num⟩
  · rw [e1, e2]
    norm_num [qMean, sysSum]
  · rw [e3, e4]
    norm_num [qMean, sysSum]

/-- C5 amended: fewer than 6 records always yield a stable trend; for six
or more records, with the recent group the first `min 3 (n / 2)` records
and the older group the up-to-3 records from index `n / 2`, the trend is
Improving iff the binary64 computation of (recent mean - older mean) is
below -5, and Worsening iff that computed double exceeds 5; for validated
readings (every systolic in [60, 250]) the comparison agrees with the
exact integer sums except exactly at sum difference plus or minus 15: a sum
difference of at most -16 is Improving, at least 16 is Worsening, and
between -14 and 14 is Stable. -/
theorem bpTrend_float_thresholds (records : List UIRecord) :
    (records.length < 6 → bpTrend records = .stable)
    ∧ (6 ≤ records.length →
        ((bpTrend records = .improving ↔
          (f64Sub (f64DivNat (sysSum (records.take (min 3 (records.length / 2)))) 3)
            (f64DivNat (sysSum ((records.drop (records.length / 2)).take 3)) 3)).ltInt
              (-5) = true)
        ∧ (bpTrend records = .worsening ↔
          (f64Sub (f64DivNat (sysSum (records.take (min 3 (records.length / 2)))) 3)
            (f64DivNat (sysSum ((records.drop (records.length / 2)).take 3)) 3)).ltInt
              (-5) = false ∧
          (f64Sub (f64DivNat (sysSum (records.take (min 3 (records.length / 2)))) 3)
            (f64DivNat (sysSum ((records.drop (records.length / 2)).take 3)) 3)).gtInt
              5 = true)
        ∧ ((∀ r ∈ records, 60 ≤ r.systolic ∧ r.systolic ≤ 250) →
            (sysSum (records.take (min 3 (records.length / 2))) -
              sysSum ((records.drop (records.length / 2)).take 3) ≤ -16 →
              bpTrend records = .improving)
            ∧ (16 ≤ sysSum (records.take (min 3 (records.length / 2))) -
                sysSum ((records.drop (records.length / 2)).take 3) →
              bpTrend records = .worsening)
            ∧ (-14 ≤ sysSum (records.take (min 3 (records.length / 2))) -
                sysSum ((records.drop (records.length / 2)).take 3) →
              sysSum (records.take (min 3 (records.length / 2))) -
                sysSum ((records.drop (records.length / 2)).take 3) ≤ 14 →
              bpTrend records = .stable)))) := by
  constructor
  · intro h
    unfold bpTrend
    rw [if_neg (by omega)]
  · intro h6
    have hlr : (records.take (min 3 (records.length / 2))).length = 3 := by
      rw [show min 3 (records.length / 2) = 3 from by omega, List.length_take]
      omega
    have hlo : ((records.drop (records.length / 2)).take 3).length = 3 := by
      rw [List.length_take, List.length_drop]
      omega
    have hkey : bpTrend records =
        (if (f64Sub (f64DivNat (sysSum (records.take (min 3 (records.length / 2)))) 3)
              (f64DivNat (sysSum ((records.drop (records.length / 2)).take 3)) 3)).ltInt
                (-5) = true then Trend.improving
         else if (f64Sub (f64DivNat (sysSum (records.take (min 3 (records.length / 2)))) 3)
              (f64DivNat (sysSum ((records.drop (records.length / 2)).take 3)) 3)).gtInt
                5 = true then Trend.worsening
         else Trend.stable) := by
      unfold bpTrend
      rw [if_pos h6]
      simp only [foldl_systolic, zero_add, hlr, hlo, sysSum]
    refine ⟨?_, ?_, ?_⟩
    · rw [hkey]
      split_ifs with hlt hgt
      · exact iff_of_true rfl hlt
      · exact iff_of_false (by decide) hlt
      · exact iff_of_false (by decide) hlt
    · rw [hkey]
      split_ifs with hlt hgt
      · exact iff_of_false (by decide) (fun hc => by simp [hlt] at hc)
      · exact iff_of_true rfl ⟨by simpa using hlt, hgt⟩
      · exact iff_of_false (by decide) (fun hc => hgt hc.2)
    · intro hbnd
      have hRb : ∀ r ∈ records.take (min 3 (records.length / 2)),
          60 ≤ r.systolic ∧ r.systolic ≤ 250 :=
        fun r hr => hbnd r ((List.take_sublist _ _).subset hr)
      have hOb : ∀ r ∈ (records.drop (records.length / 2)).take 3,
          60 ≤ r.systolic ∧ r.systolic ≤ 250 :=
        fun r hr => hbnd r
          (((List.take_sublist _ _).trans (List.drop_sublist _ _)).subset hr)
      have hA := sysSum_bounds 60 250 _ hRb
      have hB := sysSum_bounds 60 250 _ hOb
      rw [hlr] at hA
      rw [hlo] at hB
      have hA1 : 180 ≤ sysSum (records.take (min 3 (records.length / 2))) := by
        have := hA.1; push_cast at this; omega
      have hA2 : sysSum (records.take (min 3 (records.length / 2))) ≤ 750 := by
        have := hA.2; push_cast at this; omega
      have hB1 : 180 ≤ sysSum ((records.drop (records.length / 2)).take 3) := by
        have := hB.1; push_cast at this; omega
      have hB2 : sysSum ((records.drop (records.length / 2)).take 3) ≤ 750 := by
        have := hB.2; push_cast at this; omega
      have herr := trendDiff_error _ _ hA1 hA2 hB1 hB2
      obtain ⟨herrl, herru⟩ := abs_le.mp herr
      refine ⟨?_, ?_, ?_⟩
      · intro hd
        have hdQ : ((sysSum (records.take (min 3 (records.length / 2))) : ℚ) -
            (sysSum ((records.drop (records.length / 2)).take 3) : ℚ)) ≤ -16 := by
          exact_mod_cast hd
        have hbelow : (f64Sub (f64DivNat (sysSum (records.take (min 3 (records.length / 2)))) 3)
            (f64DivNat (sysSum ((records.drop (records.length / 2)).take 3)) 3)).toRat <
            ((-5 : Int) : ℚ) := by
          push_cast
          linarith
        have hltb := (Dyadic.ltInt_iff _ (-5)).mpr hbelow
        rw [hkey, if_pos hltb]
      · intro hd
        have hdQ : (16 : ℚ) ≤ ((sysSum (records.take (min 3 (records.length / 2))) : ℚ) -
            (sysSum ((records.drop (records.length / 2)).take 3) : ℚ)) := by
          exact_mod_cast hd
        have habove : ((5 : Int) : ℚ) <
            (f64Sub (f64DivNat (sysSum (records.take (min 3 (records.length / 2)))) 3)
              (f64DivNat (sysSum ((records.drop (records.length / 2)).take 3)) 3)).toRat := by
          push_cast
          linarith
        have hgtb := (Dyadic.gtInt_iff _ 5).mpr habove
        have hltf : ¬ ((f64Sub (f64DivNat (sysSum (records.take (min 3 (records.length / 2)))) 3)
            (f64DivNat (sysSum ((records.drop (records.length / 2)).take 3)) 3)).ltInt
              (-5) = true) := by
          intro hc
          have := (Dyadic.ltInt_iff _ (-5)).mp hc
          push_cast at this
          linarith
        rw [hkey, if_neg hltf, if_pos hgtb]
      · intro hd1 hd2
        have hdQ1 : (-14 : ℚ) ≤ ((sysSum (records.take (min 3 (records.length / 2))) : ℚ) -
            (sysSum ((records.drop (records.length / 2)).take 3) : ℚ)) := by
          exact_mod_cast hd1
        have hdQ2 : ((sysSum (records.take (min 3 (records.length / 2))) : ℚ) -
            (sysSum ((records.drop (records.length / 2)).take 3) : ℚ)) ≤ 14 := by
          exact_mod_cast hd2
        have hltf : ¬ ((f64Sub (f64DivNat (sysSum (records.take (min 3 (records.length / 2)))) 3)
            (f64DivNat (sysSum ((records.drop (records.length / 2)).take 3)) 3)).ltInt
              (-5) = true) := by
          intro hc
          have := (Dyadic.ltInt_iff _ (-5)).mp hc
          push_cast at this
          linarith
        have hgtf : ¬ ((f64Sub (f64DivNat (sysSum (records.take (min 3 (records.length / 2)))) 3)
            (f64DivNat (sysSum ((records.drop (records.length / 2)).take 3)) 3)).gtInt
              5 = true) := by
          intro hc
          have := (Dyadic.gtInt_iff _ 5).mp hc
          push_cast at this
          linarith
        rw [hkey, if_neg hltf, if_neg hgtf]

theorem jsJoin_cons (sep : JSStr) :
    ∀ (h : JSStr) (rows : List JSStr),
      jsJoin sep (h :: rows) = h ++ (rows.map (fun r => sep ++ r)).flatten := by
  intro h rows
  induction rows generalizing h with
  | nil => simp [jsJoin]
  | cons x xs ih =>
    show h ++ sep ++ jsJoin sep (x :: xs) = _
    rw [ih x]
    simp [List.append_assoc]

theorem contains_iff_mem {c : Char} {s : JSStr} : s.contains c = true ↔ c ∈ s := by
  simp [List.contains, List.elem_iff]

theorem needsQuoting_iff (s : JSStr) :
    needsQuoting s = true ↔ ∃ c ∈ s, c = ',' ∨ c = '"' ∨ c = '\n' ∨ c = '\r' := by
  simp only [needsQuoting, Bool.or_eq_true, contains_iff_mem]
  constructor
  · intro h
    rcases h with ((h | h) | h) | h <;> exact ⟨_, h, by simp⟩
  · rintro ⟨c, hc, hor⟩
    rcases hor with rfl | rfl | rfl | rfl <;> simp [hc]

theorem dupQuotes_eq_flatMap (s : JSStr) :
    dupQuotes s = s.flatMap (fun c => if c = '"' then ['"', '"'] else [c]) := by
  induction s with
  | nil => rfl
  | cons c t ih =>
    by_cases hc : c = '"' <;> simp [dupQuotes, hc, ih]

/-- C6: the CSV export of the empty list is exactly the header row
`Date,Systolic,Diastolic,Heart Rate,Notes`; in general the output is that
header followed, for each record in list order, by a newline and its row of
the five comma-joined fields with `recorded_at` raw; a field is quoted
(with internal double quotes doubled) iff it contains a comma, double
quote, newline or carriage return, and is left as is otherwise; null notes
render as an empty unquoted field; there is no trailing newline since rows
are newline-joined. -/
theorem recordsToCSV_format :
    recordsToCSV [] = "Date,Systolic,Diastolic,Heart Rate,Notes".data
    ∧ (∀ rs : List UIRecord, recordsToCSV rs =
        "Date,Systolic,Diastolic,Heart Rate,Notes".data ++
          (rs.map (fun r => '\n' :: csvRow r)).flatten)
    ∧ (∀ r : UIRecord, csvRow r =
        escapeCSVField r.recorded_at ++ ',' :: escapeCSVField (intToJSStr r.systolic) ++
          ',' :: escapeCSVField (intToJSStr r.diastolic) ++
          ',' :: escapeCSVField (intToJSStr r.heart_rate) ++
          ',' :: escapeCSVFieldOpt r.notes)
    ∧ (∀ s : JSStr,
        ((∃ c ∈ s, c = ',' ∨ c = '"' ∨ c = '\n' ∨ c = '\r') →
          escapeCSVField s =
            '"' :: (s.flatMap (fun c => if c = '"' then ['"', '"'] else [c])) ++ ['"'])
        ∧ ((¬ ∃ c ∈ s, c = ',' ∨ c = '"' ∨ c = '\n' ∨ c = '\r') →
          escapeCSVField s = s))
    ∧ escapeCSVFieldOpt none = [] := by
  refine ⟨by decide, ?_, ?_, ?_, rfl⟩
  · intro rs
    unfold recordsToCSV
    rw [jsJoin_cons]
    have hhd : jsJoin [','] csvHeaders = "Date,Systolic,Diastolic,Heart Rate,Notes".data := by
      decide
    rw [hhd]
    congr 1
    rw [List.map_map]
    rfl
  · intro r
    show jsJoin [','] _ = _
    simp [jsJoin, List.append_assoc]
  · intro s
    constructor
    · intro h
      unfold escapeCSVField
      rw [if_pos (needsQuoting_iff s |>.mpr h), dupQuotes_eq_flatMap]
    · intro h
      unfold escapeCSVField
      rw [if_neg (fun hq => h (needsQuoting_iff s |>.mp hq))]

theorem daysInMonth_le_31 (y m : Nat) : daysInMonth y m ≤ 31 := by
  unfold daysInMonth
  split_ifs <;> omega

-- draft: the validity test accepts exactly the real calendar dates in shape YYYY-MM-DD
theorem isValidDateString_iff (s : JSStr) :
    isValidDateString s = true ↔
      ∃ y m d, matchesYMD s = some (y, (m, d)) ∧
        1 ≤ m ∧ m ≤ 12 ∧ 1 ≤ d ∧ d ≤ daysInMonth y m := by
  unfold isValidDateString jsDateYMD
  cases hm : matchesYMD s with
  | none => simp
  | some ymd =>
    obtain ⟨y, m, d⟩ := ymd
    dsimp only
    by_cases hb : 1 ≤ m ∧ m ≤ 12 ∧ 1 ≤ d ∧ d ≤ 31
    · rw [if_pos hb]
      dsimp only
      by_cases hd : d ≤ daysInMonth y m
      · rw [if_pos hd]
        simp only [Option.some.injEq, Prod.mk.injEq, decide_eq_true_eq, Bool.and_eq_true]
        constructor
        · intro _
          exact ⟨y, m, d, ⟨rfl, rfl, rfl⟩, hb.1, hb.2.1, hb.2.2.1, hd⟩
        · intro _
          simp
      · rw [if_neg hd]
        by_cases hm12 : m = 12
        · subst hm12
          rw [if_pos rfl]
          dsimp only
          simp only [Option.some.injEq, Prod.mk.injEq, decide_eq_true_eq, Bool.and_eq_true]
          constructor
          · rintro ⟨⟨hy, -⟩, -⟩
            omega
          · rintro ⟨y2, m2, d2, ⟨hy, hmm, hdd⟩, h1, h2, h3, h4⟩
            subst hy; subst hmm; subst hdd
            exact absurd h4 hd
        · rw [if_neg hm12]
          dsimp only
          simp only [Option.some.injEq, Prod.mk.injEq, decide_eq_true_eq, Bool.and_eq_true]
          constructor
          · rintro ⟨⟨-, hmm⟩, -⟩
            omega
          · rintro ⟨y2, m2, d2, ⟨hy, hmm, hdd⟩, h1, h2, h3, h4⟩
            subst hy; subst hmm; subst hdd
            exact absurd h4 hd
    · rw [if_neg hb]
      simp only [Bool.false_eq_true, false_iff]
      rintro ⟨y2, m2, d2, heq, h1, h2, h3, h4⟩
      obtain ⟨hy, hmm, hdd⟩ : y = y2 ∧ m = m2 ∧ d = d2 := by simpa using heq
      subst hy; subst hmm; subst hdd
      have := daysInMonth_le_31 y m
      omega

/-- C1: the export route rejects a provided `from` (resp. `to`) parameter
with a 400 response whenever `isValidDateString` rejects it, and
`isValidDateString` accepts exactly the `YYYY-MM-DD` strings denoting real
calendar dates (so `2024-02-30` is rejected); when both parameters are
provided and valid, the response body is the CSV serialization of exactly
the stored records whose `recordedAt` lies in the closed interval
`[from, to]` (the store filter being modelled from the spec, see
`getRecordsForExport`). -/
theorem export_route_validates_dates_and_filters
    (fromParam toParam : Option JSStr) (db : List UIRecord) :
    (∀ s, fromParam = some s → isValidDateString s = false →
      exportGET fromParam toParam db = .status400 msgFromInvalid)
    ∧ (∀ s, toParam = some s → paramInvalid fromParam = false →
        isValidDateString s = false →
        exportGET fromParam toParam db = .status400 msgToInvalid)
    ∧ (∀ s, isValidDateString s = true ↔
        ∃ y m d, matchesYMD s = some (y, (m, d)) ∧
          1 ≤ m ∧ m ≤ 12 ∧ 1 ≤ d ∧ d ≤ daysInMonth y m)
    ∧ isValidDateString "2024-02-30".data = false
    ∧ (∀ f t, fromParam = some f → toParam = some t →
        isValidDateString f = true → isValidDateString t = true →
        exportGET fromParam toParam db =
          .status200 (recordsToCSV (db.filter (exportRangePred (some f) (some t))))) := by
  refine ⟨?_, ?_, fun s => isValidDateString_iff s, by decide, ?_⟩
  · rintro s rfl hbad
    simp [exportGET, paramInvalid, hbad]
  · rintro s rfl hfrom hbad
    unfold exportGET
    rw [hfrom]
    simp [paramInvalid, hbad]
  · rintro f t rfl rfl hf ht
    simp [exportGET, paramInvalid, hf, ht, getRecordsForExport]

/-- C8 counterexample: the id string `"5abc"` does not denote a positive
integer, yet the DELETE route does not answer 400: `parseInt` reads the
prefix `5`, validation passes, deletion is attempted, and on an empty store
the response is 404 — refuting the claim that every such malformed id
yields 400 with no deletion attempted. -/
theorem deleteRoute_accepts_garbage_suffix :
    denotesPosIntNoFrac "5abc".data = false
    ∧ deleteRoute "5abc".data ⟨[], 0⟩ = (⟨[], 0⟩, .status404 "Record not found")
    ∧ DeleteRes.status404 "Record not found" ≠ DeleteRes.status400 "Invalid record ID" := by
  decide

/-- C8 amended: the DELETE route answers 400 "Invalid record ID" with no
deletion attempted exactly when `parseInt(id, 10)` is `NaN` or below 1 or
the raw id string contains a dot (so a string with a positive-integer
prefix and trailing garbage such as `"5abc"` is accepted and treated as
that integer); every id string that does denote a positive integer passes
that validation, and an accepted id with no matching stored record yields
404 "Record not found" with the store unchanged. -/
theorem deleteRoute_validation_amended (idStr : JSStr) (st : DbState) :
    ((jsParseInt idStr = none ∨ (∃ v : Int, jsParseInt idStr = some v ∧ v < 1) ∨ '.' ∈ idStr) →
      deleteRoute idStr st = (st, .status400 "Invalid record ID"))
    ∧ (∀ v : Int, jsParseInt idStr = some v → 1 ≤ v → '.' ∉ idStr →
        (∀ r ∈ st.records, r.id ≠ v) →
        deleteRoute idStr st = (st, .status404 "Record not found"))
    ∧ (denotesPosIntNoFrac idStr = true →
        ∃ v : Int, jsParseInt idStr = some v ∧ 1 ≤ v ∧ '.' ∉ idStr) := by
  refine ⟨?_, ?_, ?_⟩
  · intro h
    rcases h with h | ⟨v, hv, hlt⟩ | hdot
    · simp [deleteRoute, h]
    · simp [deleteRoute, hv, hlt]
    · have : idStr.contains '.' = true := contains_iff_mem.mpr hdot
      simp [deleteRoute, this, hdot]
  · intro v hv h1v hdot hnone
    have hcont : idStr.contains '.' = false := by
      rcases hcc : idStr.contains '.' with _ | _
      · rfl
      · exact absurd (contains_iff_mem.mp hcc) hdot
    have hcount : st.records.countP (fun r => r.id == v) = 0 :=
      List.countP_eq_zero.mpr (fun r hr => by simp [hnone r hr])
    have hfilter : st.records.filter (fun r => !(r.id == v)) = st.records :=
      List.filter_eq_self.mpr (fun r hr => by simp [hnone r hr])
    have hlt : ¬ (v < 1) := by omega
    simp [deleteRoute, hv, hlt, hcont, deleteRecord, hcount, hfilter, hdot]
  · intro h
    simp only [denotesPosIntNoFrac, Bool.and_eq_true, Bool.not_eq_true', decide_eq_true_eq,
      List.all_eq_true] at h
    obtain ⟨⟨hne, hall⟩, hval⟩ := h
    have hne2 : idStr ≠ [] := by
      intro hx; rw [hx] at hne; simp at hne
    have hmem : ∀ c ∈ idStr, c ∈ digitChars :=
      fun c hc => contains_iff_mem.mp (hall c hc)
    refine ⟨((decVal idStr : Nat) : Int), jsParseInt_of_digits hne2 hmem, by omega, ?_⟩
    intro hdot
    exact absurd rfl (digitChars_ne_dot '.' (hmem '.' hdot))

/-! ### Witnesses -/

/-- Witness for C7 at the concrete input `"120/80"`. -/
theorem parse_two_segment_success_witness :
    parseBPInput "120/80".data = .success ⟨.num 120, .num 80, none⟩ := by
  have h := parse_two_segment_success 120 80 (by decide) (by decide) (by decide) (by decide)
  have e : "120/80".data = natToDigits 120 ++ '/' :: natToDigits 80 := by decide
  rw [e]
  exact h

/-- Witness for C10 at the concrete input `"120/80/"`. -/
theorem parse_empty_heart_rate_segment_witness :
    parseBPInput "120/80/".data = .failure [msgHrRange] :=
  parse_empty_heart_rate_segment "120/80/".data "120".data "80".data []
    (by decide) (by decide) 120 80 (by decide) (by decide) (by decide)
    (by decide) (by decide) (by decide)

/-- Witness for C3 at two concrete inputs: `"10/20/30"` has three
independently failing fields (all below range) and fails with exactly the
three pairwise-distinct range errors at once; the two-segment `"300/abc"`
mixes an above-range systolic with a non-numeric diastolic and fails with
exactly those two errors together. -/
theorem parse_accumulates_field_errors_witness :
    parseBPInput "10/20/30".data = .failure [msgSysRange, msgDiaRange, msgHrRange]
    ∧ parseBPInput "300/abc".data = .failure [msgSysRange, msgDiaNaN]
    ∧ msgSysRange ≠ msgDiaRange ∧ msgSysRange ≠ msgHrRange ∧ msgDiaRange ≠ msgHrRange := by
  refine ⟨?_, ?_, by decide, by decide, by decide⟩
  · have h := parse_accumulates_field_errors "10/20/30".data "10".data "20".data ["30".data]
      (by decide) (by decide) (by decide)
    exact h.trans (by decide)
  · have h := parse_accumulates_field_errors "300/abc".data "300".data "abc".data []
      (by decide) (by decide) (by decide)
    exact h.trans (by decide)

/-- Witness for C2: on a five-record store, `limit 2, offset 1` returns a
strictly ordered page and reports `total = 5`. -/
theorem getRecords_order_and_total_witness :
    List.Pairwise dbStrictAfter (getRecords st5 ⟨some 2, some 1, none⟩).records
    ∧ (getRecords st5 ⟨some 2, some 1, none⟩).total = 5 := by
  have h := getRecords_order_and_total st5 ⟨some 2, some 1, none⟩ (by decide)
  exact ⟨h.1, h.2.1.trans (by decide)⟩

/-- Witness for C9 on a one-record store at id 1. -/
theorem deleteRecord_idempotent_witness :
    (deleteRecord ⟨[⟨1, 120, 80, 70, 100, none⟩], 0⟩ 1).2 = true
    ∧ (deleteRecord (deleteRecord ⟨[⟨1, 120, 80, 70, 100, none⟩], 0⟩ 1).1 1).2 = false := by
  have h := deleteRecord_idempotent ⟨[⟨1, 120, 80, 70, 100, none⟩], 0⟩ 1 (by decide)
  exact ⟨h.1, h.2.1⟩

/-- Witness for the amended C5: the six-record sample has validated
readings and systolic sums 349 versus 413, a difference of -64, so the
trend is improving. -/
theorem bpTrend_float_thresholds_witness :
    bpTrend trendSample = .improving := by
  have h := ((bpTrend_float_thresholds trendSample).2 (by decide)).2.2 (by decide)
  exact h.1 (by decide)

/-- Witness for C6: a note containing commas is quoted with its characters
kept verbatim. -/
theorem recordsToCSV_format_witness :
    escapeCSVField "Note, with, commas".data =
      '"' :: ("Note, with, commas".data.flatMap
        (fun c => if c = '"' then ['"', '"'] else [c])) ++ ['"'] :=
  (recordsToCSV_format.2.2.2.1 "Note, with, commas".data).1 (by decide)

/-- Witness for C1: with valid bounds `2024-03-01` and `2024-03-31` only the
March record survives the filter and is serialized. -/
theorem export_route_validates_dates_and_filters_witness :
    exportGET (some "2024-03-01".data) (some "2024-03-31".data) exportSampleDb =
      .status200 (recordsToCSV (exportSampleDb.filter
        (exportRangePred (some "2024-03-01".data) (some "2024-03-31".data)))) :=
  (export_route_validates_dates_and_filters (some "2024-03-01".data)
      (some "2024-03-31".data) exportSampleDb).2.2.2.2
    "2024-03-01".data "2024-03-31".data rfl rfl (by decide) (by decide)

/-- Witness for the amended C8: a dotted id is rejected with 400 and an
absent well-formed id yields 404. -/
theorem deleteRoute_validation_amended_witness :
    deleteRoute "1.5".data ⟨[], 0⟩ = (⟨[], 0⟩, .status400 "Invalid record ID")
    ∧ deleteRoute "7".data ⟨[], 0⟩ = (⟨[], 0⟩, .status404 "Record not found") := by
  have h1 := (deleteRoute_validation_amended "1.5".data ⟨[], 0⟩).1
    (Or.inr (Or.inr (by decide)))
  have h2 := (deleteRoute_validation_amended "7".data ⟨[], 0⟩).2.1 7
    (by decide) (by decide) (by decide) (by simp)
  exact ⟨h1, h2⟩

end BPTracker
